import Mathlib

/-!
Verification of the process-event monitor and shutdown orchestrator of the
vinitd init daemon (`pkg/vorteil/process.go`), as a shallow embedding.

The Go source keeps two global maps:
  `procs    map[uint32]uint32` — the tracked application PID set
  `internal map[uint32]string` — daemon-owned helper processes, keyed by PID,
                                 storing the resolved executable path.
We embed the PID set as a `Finset Nat` and the string-valued map as an
association list with Go map semantics (assignment replaces, delete removes,
lookup of a missing key yields the zero value "").
-/

namespace Vinitd

abbrev PID := Nat

/-- Modelled from the spec: the init phase token (`initStatus` in the source is
declared outside the covered files; the spec gives the ordered phases
Booting → Launching → Launched → PoweringOff, monotonically increasing).
The source compares it with `<`, `>=`, `==` against `statusLaunched` and
`statusPoweroff`. -/
inductive InitStatus where
  | booting
  | launching
  | launched
  | poweroff
deriving DecidableEq

def InitStatus.toNat : InitStatus → Nat
  | InitStatus.booting => 0
  | InitStatus.launching => 1
  | InitStatus.launched => 2
  | InitStatus.poweroff => 3

instance : LE InitStatus := ⟨fun a b => a.toNat ≤ b.toNat⟩

instance : LT InitStatus := ⟨fun a b => a.toNat < b.toNat⟩

instance instInitStatusDecLE (a b : InitStatus) : Decidable (a ≤ b) :=
  Nat.decLe a.toNat b.toNat

instance instInitStatusDecLT (a b : InitStatus) : Decidable (a < b) :=
  Nat.decLt a.toNat b.toNat

theorem InitStatus.le_def (a b : InitStatus) : (a ≤ b) = (a.toNat ≤ b.toNat) := rfl

theorem InitStatus.lt_def (a b : InitStatus) : (a < b) = (a.toNat < b.toNat) := rfl

/-- `program` (declared outside the covered files): the source only reads
`p.cmd` and `p.cmd.Process`, each of which may be nil.  `Cmd.process` models
the `Process` field of the `exec.Cmd`. -/
structure Cmd where
  process : Option Unit
deriving DecidableEq

structure Program where
  cmd : Option Cmd
deriving DecidableEq

/-- The check `p.cmd == nil || p.cmd.Process == nil` in `handleExit`, negated:
the program has a live OS-level process record. -/
def Program.live (p : Program) : Bool :=
  match p.cmd with
  | none => false
  | some c => c.process.isSome

/-- Constants from `process.go`. -/
def procEventFork : Nat := 0x00000001

def procEventExec : Nat := 0x00000002

def procEventExit : Nat := 0x80000000

/-- `unix.NLMSG_DONE` -/
def NLMSG_DONE : Nat := 3

/-- `unix.NLMSG_HDRLEN` -/
def NLMSG_HDRLEN : Nat := 16

def busboxScript : String := "/vorteil/busybox-install.sh"

def busyboxPath : String := "/vorteil/busybox"

def vorteilPath : String := "/vorteil/"

/-- `strings.HasPrefix`, over the character lists of the two strings. -/
def strStartsWith (pre s : String) : Bool := pre.data.isPrefixOf s.data

/-- The classification test of `parseNetlinkMessage`:
`!strings.HasPrefix(st, "/vorteil/") || st == "/vorteil/busybox"` selects the
tracked-application map `procs`; the complementary paths go to `internal`. -/
def isTrackedPath (st : String) : Bool :=
  !(strStartsWith vorteilPath st) || st == busyboxPath

/-- Go association-map assignment `m[k] = v`: replace an existing binding for
`k`, otherwise append. -/
def assocInsert (l : List (PID × String)) (k : PID) (v : String) : List (PID × String) :=
  match l with
  | [] => [(k, v)]
  | (k', v') :: rest => if k' = k then (k, v) :: rest else (k', v') :: assocInsert rest k v

/-- Go `delete(m, k)`. -/
def assocErase (l : List (PID × String)) (k : PID) : List (PID × String) :=
  l.filter (fun q => q.1 ≠ k)

/-- Go map read `m[k]` (as an option; the Go zero value on a miss is ""). -/
def assocLookup (l : List (PID × String)) (k : PID) : Option String :=
  match l with
  | [] => none
  | (k', v) :: rest => if k' = k then some v else assocLookup rest k

/-- The mutable state the covered code touches: the two registry maps, the
shared `initStatus` token, and a count of the `syscall.Reboot` invocations
actually performed by `shutdown` (the guard in `shutdown` suppresses the call
when the status is already `poweroff`). -/
structure RegState where
  procs : Finset PID
  internal : List (PID × String)
  initStatus : InitStatus
  reboots : Nat
deriving DecidableEq

/-- `listenToProcesses` starts with both maps freshly allocated. -/
def startState : RegState :=
  { procs := ∅, internal := [], initStatus := InitStatus.booting, reboots := 0 }

inductive Decision where
  | noAction
  | triggerShutdown
deriving DecidableEq

/-- The fork/exec branch of `parseNetlinkMessage`: resolve
`/proc/<tgid>/exe` (the `exe` argument models `os.Readlink`; `none` is the
error case "app probably already finished", which returns without change);
classify the path and insert into `procs` or `internal`. -/
def handleForkExec (exe : PID → Option String) (s : RegState) (tgid : PID) : RegState :=
  match exe tgid with
  | none => s
  | some st =>
    if isTrackedPath st then
      { s with procs := insert tgid s.procs }
    else
      { s with internal := assocInsert s.internal tgid st }

/-- `handleExit` from `process.go`, with the synchronous effect of the
`shutdown(syscall.LINUX_REBOOT_CMD_POWER_OFF, 0)` call folded in: `shutdown`
first checks `initStatus == statusPoweroff` (in which case it does nothing)
and otherwise sets `initStatus = statusPoweroff` and eventually reaches
`syscall.Reboot` (counted in `reboots`).  The returned `Decision` records
whether the shutdown sequence was invoked. -/
def handleExit (progs : List Program) (s : RegState) (pid tgid : PID) : RegState × Decision :=
  if pid = tgid then
    if 0 < ((assocLookup s.internal tgid).getD "").length then
      ({ s with internal := assocErase s.internal tgid }, Decision.noAction)
    else if s.procs = ∅ ∧ InitStatus.launched ≤ s.initStatus then
      (s, Decision.noAction)
    else
      let procs' := s.procs.erase tgid
      if procs' = ∅ then
        if s.initStatus < InitStatus.launched then
          ({ s with procs := procs' }, Decision.noAction)
        else if progs.all Program.live then
          ({ s with procs := procs',
                    initStatus := InitStatus.poweroff,
                    reboots := s.reboots + (if s.initStatus = InitStatus.poweroff then 0 else 1) },
           Decision.triggerShutdown)
        else
          ({ s with procs := procs' }, Decision.noAction)
      else
        ({ s with procs := procs' }, Decision.noAction)
  else
    (s, Decision.noAction)

/-- A netlink message as `parseNetlinkMessage` receives it: header type and
payload bytes. -/
structure NlMsg where
  htype : Nat
  data : List Nat
deriving DecidableEq

structure ProcEventHeader where
  what : Nat
  cpu : Nat
  timestamp : Nat
  processPid : Nat
  processTgid : Nat
deriving DecidableEq

/-- `binary.Size(CnMsg{})`: idx, val, seq, ack (4 bytes each), len, flags
(2 bytes each). -/
def CN_MSG_SIZE : Nat := 20

/-- `binary.Size(ProcEventHeader{})`: what, cpu (4 bytes each), timestamp
(8 bytes), pid, tgid (4 bytes each). -/
def PROC_EVENT_HDR_SIZE : Nat := 24

def leNat (bs : List Nat) : Nat := bs.foldr (fun b acc => b + 256 * acc) 0

def readField (data : List Nat) (off width : Nat) : Nat :=
  leNat ((data.drop off).take width)

/-- The two `binary.Read` calls of `parseNetlinkMessage`, errors ignored as in
the source: `binary.Read` buffers the full struct before writing any field, so
when the payload is shorter than both structs together the event header stays
zero-valued. The `CnMsg` occupies the first 20 bytes and is otherwise unused. -/
def decodeProcEventHeader (data : List Nat) : ProcEventHeader :=
  if data.length < CN_MSG_SIZE + PROC_EVENT_HDR_SIZE then
    { what := 0, cpu := 0, timestamp := 0, processPid := 0, processTgid := 0 }
  else
    { what := readField data 20 4
      cpu := readField data 24 4
      timestamp := readField data 28 8
      processPid := readField data 36 4
      processTgid := readField data 40 4 }

/-- `parseNetlinkMessage`: only messages of type `unix.NLMSG_DONE` are
considered; the `what` field dispatches fork/exec (one shared branch, via
fallthrough) and exit. -/
def parseNetlinkMessage (exe : PID → Option String) (progs : List Program)
    (s : RegState) (m : NlMsg) : RegState × Decision :=
  if m.htype = NLMSG_DONE then
    let hdr := decodeProcEventHeader m.data
    if hdr.what = procEventFork ∨ hdr.what = procEventExec then
      (handleForkExec exe s hdr.processTgid, Decision.noAction)
    else if hdr.what = procEventExit then
      handleExit progs s hdr.processPid hdr.processTgid
    else
      (s, Decision.noAction)
  else
    (s, Decision.noAction)

/-- Sender address of a received datagram, as `unix.Recvfrom` reports it. -/
inductive NlFrom where
  | netlink (pid : Nat)
  | other
deriving DecidableEq

/-- `recv` from `process.go` over abstract receive outcomes: the sender
address check runs first (a missing or non-netlink sender, or a sender with a
non-zero netlink pid, is rejected), then the receive error, then the length
check against `unix.NLMSG_HDRLEN`, then `syscall.ParseNetlinkMessage` (whose
outcome is the `parsed` argument). -/
def recv (frm : Option NlFrom) (recvErr : Option String) (nr : Nat)
    (parsed : Except String (List NlMsg)) : Except String (List NlMsg) :=
  let senderOk : Bool :=
    match frm with
    | some (NlFrom.netlink pid) => pid == 0
    | _ => false
  if senderOk then
    match recvErr with
    | some e => Except.error e
    | none =>
      if nr < NLMSG_HDRLEN then
        Except.error "number of bytes too small"
      else
        parsed
  else
    Except.error "can not create netlink sockaddr"

/-- A run of fork/exec events through `parseNetlinkMessage`'s fork/exec
branch. -/
def runForkExecs (exe : PID → Option String) (s : RegState) (L : List PID) : RegState :=
  L.foldl (handleForkExec exe) s

/-- A run of exit events through `handleExit`; the second component counts the
`TriggerShutdown` decisions (invocations of the shutdown sequence). -/
def runExits (progs : List Program) (s : RegState) (L : List (PID × PID)) : RegState × Nat :=
  match L with
  | [] => (s, 0)
  | e :: rest =>
    let r := handleExit progs s e.1 e.2
    let r2 := runExits progs r.1 rest
    (r2.1, (if r.2 = Decision.triggerShutdown then 1 else 0) + r2.2)

/-- States reachable from listener start by any interleaving of fork/exec
events (each with its own momentary `/proc/<pid>/exe` resolution), exit
events, and external writes of the shared `initStatus` token. -/
inductive Reachable : RegState → Prop where
  | start : Reachable startState
  | forkExec (s : RegState) (exe : PID → Option String) (tgid : PID) :
      Reachable s → Reachable (handleForkExec exe s tgid)
  | exitEv (s : RegState) (progs : List Program) (pid tgid : PID) :
      Reachable s → Reachable (handleExit progs s pid tgid).1
  | phase (s : RegState) (st : InitStatus) :
      Reachable s → Reachable { s with initStatus := st }

/-- Reachability as in `Reachable`, but with one fixed executable-path
resolver used by every fork/exec event (each PID's classification never
changes across the run). -/
inductive ReachableWith (exe : PID → Option String) : RegState → Prop where
  | start : ReachableWith exe startState
  | forkExec (s : RegState) (tgid : PID) :
      ReachableWith exe s → ReachableWith exe (handleForkExec exe s tgid)
  | exitEv (s : RegState) (progs : List Program) (pid tgid : PID) :
      ReachableWith exe s → ReachableWith exe (handleExit progs s pid tgid).1
  | phase (s : RegState) (st : InitStatus) :
      ReachableWith exe s → ReachableWith exe { s with initStatus := st }

/-!  The `shutdown` sequence itself, over abstract outcomes of its fallible
sub-steps.  The source has no early return after the initial status guard:
`killAll` logs and returns on a `ps.Processes` error, the two
`ioutil.WriteFile` results on `/proc/sysrq-trigger` are discarded, and a
`bootDisk` error only skips `flushDisk`. -/

/-- Outcomes of the fallible collaborators `shutdown` consults. -/
structure ShutdownEnv where
  /-- `ps.Processes()`: `none` models the error return. Pairs are (pid, ppid). -/
  psList : Option (List (Nat × Nat))
  /-- result of writing "s" to /proc/sysrq-trigger (discarded by the source) -/
  sysrqSOk : Bool
  /-- result of writing "u" to /proc/sysrq-trigger (discarded by the source) -/
  sysrqUOk : Bool
  /-- `bootDisk()`: `none` models the error return -/
  bootDiskName : Option String
deriving DecidableEq

/-- `killAll`: on an enumeration error nothing is signalled; otherwise every
process with pid > 2 and ppid > 2 receives SIGINT and SIGTERM. Returns the
pids signalled. -/
def killAll (env : ShutdownEnv) : List Nat :=
  match env.psList with
  | none => []
  | some pl => (pl.filter (fun pr => decide (2 < pr.1) && decide (2 < pr.2))).map Prod.fst

structure ShutdownOutcome where
  finalStatus : InitStatus
  signalled : List Nat
  sleptMs : Nat
  sysrqWrites : Nat
  flushedDisk : Option String
  rebootCalled : Option Nat
deriving DecidableEq

/-- `shutdown(cmd, timeout)`: guard on `initStatus == statusPoweroff`, set the
status, `killAll`, sleep the grace window, countdown, two sysrq writes,
best-effort disk flush, and finally `syscall.Reboot(cmd)`. -/
def shutdown (st : InitStatus) (env : ShutdownEnv) (cmd timeoutMs : Nat) : ShutdownOutcome :=
  if st = InitStatus.poweroff then
    { finalStatus := st, signalled := [], sleptMs := 0, sysrqWrites := 0,
      flushedDisk := none, rebootCalled := none }
  else
    { finalStatus := InitStatus.poweroff
      signalled := killAll env
      sleptMs := timeoutMs
      sysrqWrites := 2
      flushedDisk := env.bootDiskName
      rebootCalled := some cmd }

/-!  Interleaving model for two concurrent callers of `shutdown`.  The guard
`if initStatus == statusPoweroff { return }` and the write
`initStatus = statusPoweroff` are two separate non-atomic actions; the
remainder of the body (which ends in `syscall.Reboot`) is a third. -/

inductive CallerPC where
  /-- about to read `initStatus` and branch -/
  | guard
  /-- guard passed, about to write `initStatus = statusPoweroff` -/
  | setting
  /-- about to run the body through `syscall.Reboot` -/
  | body
  /-- returned at the guard -/
  | stopped
  /-- body done, reboot issued -/
  | finished
deriving DecidableEq

structure RaceState where
  status : InitStatus
  pc1 : CallerPC
  pc2 : CallerPC
  reboots : Nat
deriving DecidableEq

def stepPC (st : InitStatus) (pc : CallerPC) (reb : Nat) : InitStatus × CallerPC × Nat :=
  match pc with
  | CallerPC.guard =>
    if st = InitStatus.poweroff then (st, CallerPC.stopped, reb)
    else (st, CallerPC.setting, reb)
  | CallerPC.setting => (InitStatus.poweroff, CallerPC.body, reb)
  | CallerPC.body => (st, CallerPC.finished, reb + 1)
  | pc => (st, pc, reb)

/-- One scheduler step: `false` advances caller 1, `true` advances caller 2. -/
def raceStep (c : RaceState) (second : Bool) : RaceState :=
  if second then
    let r := stepPC c.status c.pc2 c.reboots
    { status := r.1, pc1 := c.pc1, pc2 := r.2.1, reboots := r.2.2 }
  else
    let r := stepPC c.status c.pc1 c.reboots
    { status := r.1, pc1 := r.2.1, pc2 := c.pc2, reboots := r.2.2 }

def runRace (c : RaceState) (sched : List Bool) : RaceState :=
  sched.foldl raceStep c

/-! ### Helper lemmas about the association map -/

theorem mem_assocInsert {l : List (PID × String)} {k : PID} {v : String} {q : PID × String}
    (h : q ∈ assocInsert l k v) : q = (k, v) ∨ q ∈ l := by
  induction l with
  | nil =>
    simp [assocInsert] at h
    exact Or.inl h
  | cons p rest ih =>
    obtain ⟨k', v'⟩ := p
    by_cases hk : k' = k
    · simp [assocInsert, hk] at h
      rcases h with h | h
      · exact Or.inl h
      · exact Or.inr (List.mem_cons_of_mem _ h)
    · simp only [assocInsert, if_neg hk, List.mem_cons] at h
      rcases h with h | h
      · exact Or.inr (List.mem_cons.2 (Or.inl h))
      · rcases ih h with h' | h'
        · exact Or.inl h'
        · exact Or.inr (List.mem_cons_of_mem _ h')

theorem assocLookup_eq_some_mem {l : List (PID × String)} {k : PID} {v : String}
    (h : assocLookup l k = some v) : (k, v) ∈ l := by
  induction l with
  | nil => simp [assocLookup] at h
  | cons p rest ih =>
    obtain ⟨k', v'⟩ := p
    by_cases hk : k' = k
    · simp only [assocLookup, if_pos hk] at h
      subst hk
      cases h
      exact List.mem_cons_self _ _
    · simp only [assocLookup, if_neg hk] at h
      exact List.mem_cons_of_mem _ (ih h)

theorem mem_assocErase {l : List (PID × String)} {k : PID} {q : PID × String}
    (h : q ∈ assocErase l k) : q ∈ l :=
  (List.mem_filter.1 h).1

theorem assocLookup_assocErase_self (l : List (PID × String)) (k : PID) :
    assocLookup (assocErase l k) k = none := by
  induction l with
  | nil => rfl
  | cons p rest ih =>
    obtain ⟨k', v'⟩ := p
    by_cases hk : k' = k
    · simpa [assocErase, List.filter_cons, hk] using ih
    · simpa [assocErase, List.filter_cons, hk, assocLookup] using ih

/-! ### Helper lemmas about path classification -/

theorem strStartsWith_vorteil_length {st : String}
    (h : strStartsWith vorteilPath st = true) : 0 < st.length := by
  cases he : st.data with
  | nil =>
    rw [strStartsWith, he] at h
    exact absurd h (by decide)
  | cons c cs =>
    have : st.length = cs.length + 1 := by
      show st.data.length = cs.length + 1
      rw [he]
      rfl
    omega

theorem isTrackedPath_eq_false {st : String} (h : isTrackedPath st = false) :
    strStartsWith vorteilPath st = true ∧ st ≠ busyboxPath := by
  simp only [isTrackedPath, Bool.or_eq_false_iff, Bool.not_eq_false', beq_eq_false_iff_ne,
    ne_eq] at h
  exact h

/-! ### Branch shape of `handleExit` -/

theorem handleExit_shape (progs : List Program) (s : RegState) (pid tgid : PID) :
    handleExit progs s pid tgid = (s, Decision.noAction)
    ∨ handleExit progs s pid tgid
        = ({ s with internal := assocErase s.internal tgid }, Decision.noAction)
    ∨ handleExit progs s pid tgid
        = ({ s with procs := s.procs.erase tgid }, Decision.noAction)
    ∨ handleExit progs s pid tgid
        = ({ s with procs := s.procs.erase tgid,
                    initStatus := InitStatus.poweroff,
                    reboots := s.reboots
                      + (if s.initStatus = InitStatus.poweroff then 0 else 1) },
           Decision.triggerShutdown) := by
  unfold handleExit
  repeat' split
  all_goals simp
  all_goals tauto

/-- Every branch of `handleExit` leaves `internal` unchanged or shrinks it. -/
theorem handleExit_internal_subset {progs : List Program} {s : RegState} {pid tgid : PID}
    {q : PID × String} (h : q ∈ (handleExit progs s pid tgid).1.internal) :
    q ∈ s.internal := by
  rcases handleExit_shape progs s pid tgid with he | he | he | he <;>
    rw [he] at h
  · exact h
  · exact mem_assocErase h
  · exact h
  · exact h

/-- Every branch of `handleExit` leaves `procs` unchanged or shrinks it. -/
theorem handleExit_procs_subset {progs : List Program} {s : RegState} {pid tgid : PID}
    {p : PID} (h : p ∈ (handleExit progs s pid tgid).1.procs) :
    p ∈ s.procs := by
  rcases handleExit_shape progs s pid tgid with he | he | he | he <;>
    rw [he] at h
  · exact h
  · exact h
  · exact Finset.mem_of_mem_erase h
  · exact Finset.mem_of_mem_erase h

/-! ### Branch-equation lemmas for `handleExit` -/

/-- With `procs` empty and the phase at least Launched, `handleExit` takes the
"apps launched but not registered" early return (or only trims `internal`):
the decision is NoAction and `procs`, the phase and the reboot count are
untouched. -/
theorem handleExit_quiet (progs : List Program) (s : RegState) (pid tgid : PID)
    (h0 : s.procs = ∅) (hst : InitStatus.launched ≤ s.initStatus) :
    (handleExit progs s pid tgid).2 = Decision.noAction ∧
    (handleExit progs s pid tgid).1.procs = s.procs ∧
    (handleExit progs s pid tgid).1.initStatus = s.initStatus ∧
    (handleExit progs s pid tgid).1.reboots = s.reboots := by
  unfold handleExit
  by_cases hpt : pid = tgid
  · rw [if_pos hpt]
    by_cases hint : 0 < ((assocLookup s.internal tgid).getD "").length
    · rw [if_pos hint]
      exact ⟨rfl, rfl, rfl, rfl⟩
    · rw [if_neg hint, if_pos (And.intro h0 hst)]
      exact ⟨rfl, rfl, rfl, rfl⟩
  · rw [if_neg hpt]
    exact ⟨rfl, rfl, rfl, rfl⟩

/-- A leader exit of a PID not in `internal` that leaves other tracked PIDs
behind just erases the PID. -/
theorem handleExit_step (progs : List Program) (s : RegState) (tgid : PID)
    (hin : assocLookup s.internal tgid = none)
    (hproc : s.procs ≠ ∅) (hne : s.procs.erase tgid ≠ ∅) :
    handleExit progs s tgid tgid
      = ({ s with procs := s.procs.erase tgid }, Decision.noAction) := by
  simp [handleExit, hin, hproc, hne]

/-- The final leader exit with the phase at Launched or later and all
program handles live invokes the shutdown sequence. -/
theorem handleExit_trigger (progs : List Program) (s : RegState) (tgid : PID)
    (hin : assocLookup s.internal tgid = none)
    (hproc : s.procs ≠ ∅) (her : s.procs.erase tgid = ∅)
    (hst : ¬ s.initStatus < InitStatus.launched)
    (hall : progs.all Program.live = true) :
    handleExit progs s tgid tgid
      = ({ s with procs := s.procs.erase tgid,
                  initStatus := InitStatus.poweroff,
                  reboots := s.reboots
                    + (if s.initStatus = InitStatus.poweroff then 0 else 1) },
         Decision.triggerShutdown) := by
  simp [handleExit, hin, hproc, her, hst, hall]

/-- The final leader exit with a program handle still nil only erases the PID
("apps still starting"). -/
theorem handleExit_lost (progs : List Program) (s : RegState) (tgid : PID)
    (hin : assocLookup s.internal tgid = none)
    (hproc : s.procs ≠ ∅) (her : s.procs.erase tgid = ∅)
    (hst : ¬ s.initStatus < InitStatus.launched)
    (hall : progs.all Program.live = false) :
    handleExit progs s tgid tgid
      = ({ s with procs := s.procs.erase tgid }, Decision.noAction) := by
  simp [handleExit, hin, hproc, her, hst, hall]

/-! ### Lemmas about event runs -/

theorem runExits_append (progs : List Program) (A B : List (PID × PID)) (s : RegState) :
    runExits progs s (A ++ B)
      = ((runExits progs (runExits progs s A).1 B).1,
         (runExits progs s A).2 + (runExits progs (runExits progs s A).1 B).2) := by
  induction A generalizing s with
  | nil => simp [runExits]
  | cons e rest ih => simp [runExits, ih, Nat.add_assoc]

/-- From a state with `procs` empty and the phase at least Launched, no run of
exit events ever invokes the shutdown sequence, and `procs`, the phase and the
reboot count stay untouched. -/
theorem runExits_quiet (progs : List Program) (L : List (PID × PID)) :
    ∀ s : RegState, s.procs = ∅ → InitStatus.launched ≤ s.initStatus →
      (runExits progs s L).2 = 0 ∧
      (runExits progs s L).1.procs = ∅ ∧
      (runExits progs s L).1.initStatus = s.initStatus ∧
      (runExits progs s L).1.reboots = s.reboots := by
  induction L with
  | nil =>
    intro s h0 _
    simp [runExits, h0]
  | cons e rest ih =>
    intro s h0 hst
    obtain ⟨hd, hp, hs, hr⟩ := handleExit_quiet progs s e.1 e.2 h0 hst
    have h0' : (handleExit progs s e.1 e.2).1.procs = ∅ := by rw [hp, h0]
    have hst' : InitStatus.launched ≤ (handleExit progs s e.1 e.2).1.initStatus := by
      rw [hs]; exact hst
    obtain ⟨c0, cp, cs, cr⟩ := ih (handleExit progs s e.1 e.2).1 h0' hst'
    refine ⟨?_, ?_, ?_, ?_⟩
    · simp [runExits, hd, c0]
    · simpa [runExits] using cp
    · simp [runExits]; rw [cs, hs]
    · simp [runExits]; rw [cr, hr]

/-- Exits of exactly the tracked PIDs, in any order, from a state with
`internal` empty and the phase at Launched: the tracked set empties and the
shutdown sequence is invoked exactly once, rebooting once. -/
theorem runExits_once (progs : List Program) (hall : progs.all Program.live = true) :
    ∀ (order : List PID) (s : RegState), order ≠ [] → order.Nodup →
      s.procs = order.toFinset → s.internal = [] →
      s.initStatus = InitStatus.launched →
      runExits progs s (order.map (fun p => (p, p)))
        = ({ procs := ∅, internal := [], initStatus := InitStatus.poweroff,
             reboots := s.reboots + 1 }, 1) := by
  intro order
  induction order with
  | nil => intro s hne; exact absurd rfl hne
  | cons p rest ih =>
    intro s _ hnd hpr hint hst
    have hin : assocLookup s.internal p = none := by rw [hint]; rfl
    have hproc : s.procs ≠ ∅ := by
      rw [hpr, List.toFinset_cons]
      exact Finset.insert_ne_empty _ _
    have hpnotin : p ∉ rest := (List.nodup_cons.1 hnd).1
    have her : s.procs.erase p = rest.toFinset := by
      rw [hpr, List.toFinset_cons,
        Finset.erase_insert (by simpa using hpnotin)]
    cases rest with
    | nil =>
      have her0 : s.procs.erase p = ∅ := by simpa using her
      have hstlt : ¬ s.initStatus < InitStatus.launched := by
        rw [hst, InitStatus.lt_def]
        omega
      have htr := handleExit_trigger progs s p hin hproc her0 hstlt hall
      have hnp : ¬ s.initStatus = InitStatus.poweroff := by
        rw [hst]; intro hc; cases hc
      simp [runExits, htr, her0, hint, hnp]
    | cons q rest' =>
      have hne2 : s.procs.erase p ≠ ∅ := by
        rw [her, List.toFinset_cons]
        exact Finset.insert_ne_empty _ _
      have hstep := handleExit_step progs s p hin hproc hne2
      have ihapp := ih { s with procs := s.procs.erase p }
        (List.cons_ne_nil q rest') (List.nodup_cons.1 hnd).2 (by simpa using her)
        (by simpa using hint) (by simpa using hst)
      have hunfold : runExits progs s ((p, p) :: List.map (fun r => (r, r)) (q :: rest'))
          = ((runExits progs (handleExit progs s p p).1
                (List.map (fun r => (r, r)) (q :: rest'))).1,
             (if (handleExit progs s p p).2 = Decision.triggerShutdown then 1 else 0)
               + (runExits progs (handleExit progs s p p).1
                    (List.map (fun r => (r, r)) (q :: rest'))).2) := rfl
      rw [show List.map (fun r => (r, r)) (p :: q :: rest')
            = (p, p) :: List.map (fun r => (r, r)) (q :: rest') from rfl]
      rw [hunfold, hstep]
      simp
      simpa using ihapp

/-- Fork/exec events whose resolved paths all classify as tracked just
accumulate the PIDs into `procs`. -/
theorem runForkExecs_tracked (exe : PID → Option String) :
    ∀ (L : List PID) (s : RegState),
      (∀ p ∈ L, ∃ st, exe p = some st ∧ isTrackedPath st = true) →
      runForkExecs exe s L = { s with procs := s.procs ∪ L.toFinset } := by
  intro L
  induction L with
  | nil => intro s _; simp [runForkExecs]
  | cons p rest ih =>
    intro s h
    obtain ⟨st, hexe, htr⟩ := h p (List.mem_cons_self p rest)
    have hstep : handleForkExec exe s p = { s with procs := insert p s.procs } := by
      simp [handleForkExec, hexe, htr]
    have ihapp := ih { s with procs := insert p s.procs }
      (fun q hq => h q (List.mem_cons_of_mem _ hq))
    show List.foldl (handleForkExec exe) s (p :: rest) = _
    rw [List.foldl_cons, hstep]
    rw [show List.foldl (handleForkExec exe) { s with procs := insert p s.procs } rest
          = runForkExecs exe { s with procs := insert p s.procs } rest from rfl, ihapp]
    simp [List.toFinset_cons, Finset.insert_union, Finset.union_insert]

/-! ### Reachability invariants -/

/-- In every reachable state, every path stored in `internal` is one the
classifier sent there: it starts with "/vorteil/" and is not the embedded
shell (in particular it is nonempty, so the presence test
`len(internal[tgid]) > 0` of `handleExit` recognises it). -/
theorem reachable_internal_untracked {s : RegState} (h : Reachable s) :
    ∀ q ∈ s.internal, isTrackedPath q.2 = false := by
  induction h with
  | start => intro q hq; cases hq
  | forkExec s exe tgid _ ih =>
    intro q hq
    cases hexe : exe tgid with
    | none =>
      rw [show handleForkExec exe s tgid = s by simp [handleForkExec, hexe]] at hq
      exact ih q hq
    | some st =>
      by_cases htr : isTrackedPath st
      · rw [show handleForkExec exe s tgid = { s with procs := insert tgid s.procs } by
          simp [handleForkExec, hexe, htr]] at hq
        exact ih q hq
      · rw [show handleForkExec exe s tgid
              = { s with internal := assocInsert s.internal tgid st } by
          simp [handleForkExec, hexe, htr]] at hq
        rcases mem_assocInsert hq with hq' | hq'
        · rw [hq']
          exact Bool.not_eq_true _ ▸ htr
        · exact ih q hq'
  | exitEv s progs pid tgid _ ih =>
    intro q hq
    exact ih q (handleExit_internal_subset hq)
  | phase s st _ ih =>
    intro q hq
    exact ih q hq

/-- Under one fixed resolver, every tracked PID resolves to a
tracked-classified path and every `internal` entry stores the resolver's
(untracked-classified) path for its PID. -/
theorem reachableWith_classified {exe : PID → Option String} {s : RegState}
    (h : ReachableWith exe s) :
    (∀ p ∈ s.procs, ∃ st, exe p = some st ∧ isTrackedPath st = true) ∧
    (∀ q ∈ s.internal, exe q.1 = some q.2 ∧ isTrackedPath q.2 = false) := by
  induction h with
  | start =>
    refine ⟨?_, ?_⟩
    · intro p hp; cases hp
    · intro q hq; cases hq
  | forkExec s tgid _ ih =>
    obtain ⟨ihp, ihi⟩ := ih
    cases hexe : exe tgid with
    | none =>
      rw [show handleForkExec exe s tgid = s by simp [handleForkExec, hexe]]
      exact ⟨ihp, ihi⟩
    | some st =>
      by_cases htr : isTrackedPath st
      · rw [show handleForkExec exe s tgid = { s with procs := insert tgid s.procs } by
          simp [handleForkExec, hexe, htr]]
        refine ⟨?_, ihi⟩
        intro p hp
        rcases Finset.mem_insert.1 hp with hp' | hp'
        · exact hp' ▸ ⟨st, hexe, htr⟩
        · exact ihp p hp'
      · rw [show handleForkExec exe s tgid
              = { s with internal := assocInsert s.internal tgid st } by
          simp [handleForkExec, hexe, htr]]
        refine ⟨ihp, ?_⟩
        intro q hq
        rcases mem_assocInsert hq with hq' | hq'
        · rw [hq']
          exact ⟨hexe, Bool.not_eq_true _ ▸ htr⟩
        · exact ihi q hq'
  | exitEv s progs pid tgid _ ih =>
    obtain ⟨ihp, ihi⟩ := ih
    exact ⟨fun p hp => ihp p (handleExit_procs_subset hp),
           fun q hq => ihi q (handleExit_internal_subset hq)⟩
  | phase s st _ ih =>
    exact ih

/-! ### Claims -/

/-- C1, counterexample: the claim's own example fails on the code.  A fork of
tgid 100 whose leader resolves to "/vorteil/app" (a non-shell path under the
application namespace) does NOT yield `tracked = {100}`: the classifier sends
every path under "/vorteil/" other than the embedded shell to `internal`, so
`procs` stays empty and `internal` gains the entry. -/
theorem c1_counterexample :
    (handleForkExec (fun _ => some "/vorteil/app") startState 100).procs = ∅ ∧
    (handleForkExec (fun _ => some "/vorteil/app") startState 100).internal
      = [(100, "/vorteil/app")] := by
  decide

/-- C1, amended: for every fork or exec event whose leader's path resolves,
the registry records the process in `internal` exactly when the path starts
with "/vorteil/" and is not the embedded shell "/vorteil/busybox" (this
includes the bootstrap script "/vorteil/busybox-install.sh" and any
application path under "/vorteil/"), and inserts it into `procs` (tracked)
exactly when the path does not start with "/vorteil/" or is exactly the
embedded shell. -/
theorem c1_amended (s : RegState) (exe : PID → Option String) (tgid : PID) (st : String)
    (h : exe tgid = some st) :
    (isTrackedPath st = true →
      handleForkExec exe s tgid = { s with procs := insert tgid s.procs }) ∧
    (isTrackedPath st = false →
      handleForkExec exe s tgid
        = { s with internal := assocInsert s.internal tgid st }) ∧
    isTrackedPath st = (!(strStartsWith vorteilPath st) || st == busyboxPath) := by
  refine ⟨?_, ?_, rfl⟩
  · intro htr
    simp [handleForkExec, h, htr]
  · intro htr
    simp [handleForkExec, h, htr]

theorem c1_amended_witness :
    (isTrackedPath busboxScript = true →
      handleForkExec (fun _ => some busboxScript) startState 200
        = { startState with procs := insert 200 startState.procs }) ∧
    (isTrackedPath busboxScript = false →
      handleForkExec (fun _ => some busboxScript) startState 200
        = { startState with internal := assocInsert startState.internal 200 busboxScript }) ∧
    isTrackedPath busboxScript
      = (!(strStartsWith vorteilPath busboxScript) || busboxScript == busyboxPath) :=
  c1_amended startState (fun _ => some busboxScript) 200 busboxScript rfl

/-- C2: from a fresh registry, fork/exec events that register application PIDs
into `tracked`, followed (after the phase reaches Launched, with every program
handle live) by leader exits of exactly those PIDs in any order and then any
further exit events: the tracked set returns to empty and the shutdown
sequence is invoked exactly once — one reboot — never more. -/
theorem c2_exactly_one_shutdown
    (exe : PID → Option String) (pids order : List PID)
    (progs : List Program) (extra : List (PID × PID))
    (h1 : pids ≠ [])
    (h3 : ∀ p ∈ pids, ∃ st, exe p = some st ∧ isTrackedPath st = true)
    (h4 : order.Nodup) (h5 : order.toFinset = pids.toFinset)
    (h6 : progs.all Program.live = true) :
    (runExits progs
      { runForkExecs exe startState pids with initStatus := InitStatus.launched }
      (order.map (fun r => (r, r)) ++ extra)).2 = 1 ∧
    (runExits progs
      { runForkExecs exe startState pids with initStatus := InitStatus.launched }
      (order.map (fun r => (r, r)) ++ extra)).1.procs = ∅ ∧
    (runExits progs
      { runForkExecs exe startState pids with initStatus := InitStatus.launched }
      (order.map (fun r => (r, r)) ++ extra)).1.reboots = 1 := by
  have hforks := runForkExecs_tracked exe pids startState h3
  have hs2 : ({ runForkExecs exe startState pids with
                initStatus := InitStatus.launched } : RegState)
      = { procs := pids.toFinset, internal := [],
          initStatus := InitStatus.launched, reboots := 0 } := by
    rw [hforks]
    simp [startState]
  have horder_ne : order ≠ [] := by
    intro hO
    cases pids with
    | nil => exact h1 rfl
    | cons a t =>
      have ha : a ∈ order.toFinset := by
        rw [h5]
        simp
      rw [hO] at ha
      simp at ha
  have honce := runExits_once progs h6 order
    { procs := pids.toFinset, internal := [],
      initStatus := InitStatus.launched, reboots := 0 }
    horder_ne h4 h5.symm rfl rfl
  have happ := runExits_append progs (order.map (fun r => (r, r))) extra
    { procs := pids.toFinset, internal := [],
      initStatus := InitStatus.launched, reboots := 0 }
  have hq := runExits_quiet progs extra
    { procs := ∅, internal := [], initStatus := InitStatus.poweroff, reboots := 0 + 1 }
    rfl (by decide)
  rw [hs2, happ, honce]
  refine ⟨?_, ?_, ?_⟩
  · simpa using hq.1
  · simpa using hq.2.1
  · simpa using hq.2.2.2

theorem c2_witness :
    (runExits [Program.mk (some (Cmd.mk (some ())))]
      { runForkExecs (fun _ => some "/app") startState [100] with
        initStatus := InitStatus.launched }
      ([100].map (fun r => (r, r)) ++ [(100, 100)])).2 = 1 ∧
    (runExits [Program.mk (some (Cmd.mk (some ())))]
      { runForkExecs (fun _ => some "/app") startState [100] with
        initStatus := InitStatus.launched }
      ([100].map (fun r => (r, r)) ++ [(100, 100)])).1.procs = ∅ ∧
    (runExits [Program.mk (some (Cmd.mk (some ())))]
      { runForkExecs (fun _ => some "/app") startState [100] with
        initStatus := InitStatus.launched }
      ([100].map (fun r => (r, r)) ++ [(100, 100)])).1.reboots = 1 :=
  c2_exactly_one_shutdown (fun _ => some "/app") [100] [100]
    [Program.mk (some (Cmd.mk (some ())))] [(100, 100)]
    (by decide) (fun p _ => ⟨"/app", rfl, by decide⟩)
    (by decide) rfl (by decide)

/-- C3, counterexample: a fork that resolves PID 100 to "/bin/app" (inserted
into `tracked`) followed by an exec of the same PID resolving to
"/vorteil/tool" (inserted into `internal`) leaves 100 a member of both maps
simultaneously — the claimed invariant fails. -/
theorem c3_counterexample :
    100 ∈ (handleForkExec (fun _ => some "/vorteil/tool")
            (handleForkExec (fun _ => some "/bin/app") startState 100) 100).procs ∧
    (assocLookup (handleForkExec (fun _ => some "/vorteil/tool")
            (handleForkExec (fun _ => some "/bin/app") startState 100) 100).internal
      100).isSome = true := by
  decide

/-- C3, amended: in every state reachable under one fixed executable-path
resolver (so no fork/exec event ever re-classifies a PID), each PID is in at
most one of the two maps; a reclassifying exec, as in the counterexample, can
make a PID a member of both. -/
theorem c3_amended (exe : PID → Option String) (s : RegState)
    (h : ReachableWith exe s) (p : PID) :
    ¬ (p ∈ s.procs ∧ (assocLookup s.internal p).isSome = true) := by
  rintro ⟨hp, hi⟩
  obtain ⟨ihp, ihi⟩ := reachableWith_classified h
  obtain ⟨st, hexe, htr⟩ := ihp p hp
  obtain ⟨v, hv⟩ := Option.isSome_iff_exists.1 hi
  obtain ⟨hexe2, hfl⟩ := ihi (p, v) (assocLookup_eq_some_mem hv)
  have hsv : st = v := by
    rw [hexe] at hexe2
    exact Option.some.inj hexe2
  have hfl' : isTrackedPath v = false := hfl
  rw [hsv] at htr
  rw [htr] at hfl'
  cases hfl'

theorem c3_amended_witness :
    ¬ (100 ∈ (handleForkExec (fun _ => some "/bin/app") startState 100).procs ∧
       (assocLookup (handleForkExec (fun _ => some "/bin/app") startState 100).internal
         100).isSome = true) :=
  c3_amended (fun _ => some "/bin/app")
    (handleForkExec (fun _ => some "/bin/app") startState 100)
    (ReachableWith.forkExec startState 100 ReachableWith.start) 100

/-- C4, counterexample: with the source's non-atomic check-then-set guard, a
schedule that lets both callers pass the guard before either writes the status
executes the terminal reboot call twice, not exactly once. -/
theorem c4_counterexample :
    (runRace ⟨InitStatus.launched, CallerPC.guard, CallerPC.guard, 0⟩
      [false, true, false, false, true, true]).reboots = 2 := by
  decide

/-- C4, amended: when the two invocations do not interleave (the first caller
runs to completion before the second starts), the reboot executes exactly
once and the second caller returns immediately at the guard; under an
interleaved schedule both callers may reboot (see the counterexample). -/
theorem c4_amended (st : InitStatus) (h : st ≠ InitStatus.poweroff) :
    runRace ⟨st, CallerPC.guard, CallerPC.guard, 0⟩ [false, false, false, true]
      = ⟨InitStatus.poweroff, CallerPC.finished, CallerPC.stopped, 1⟩ := by
  cases st
  · rfl
  · rfl
  · rfl
  · exact absurd rfl h

theorem c4_amended_witness :
    runRace ⟨InitStatus.launched, CallerPC.guard, CallerPC.guard, 0⟩
      [false, false, false, true]
      = ⟨InitStatus.poweroff, CallerPC.finished, CallerPC.stopped, 1⟩ :=
  c4_amended InitStatus.launched (by decide)

/-- C5: once `shutdown` is entered with the phase not already PoweringOff, the
terminal reboot syscall with the given command is always invoked, for every
outcome of the fallible sub-steps (process-enumeration error, sysrq write
errors, boot-disk resolution error). -/
theorem c5_reboot_always (st : InitStatus) (env : ShutdownEnv) (cmd timeoutMs : Nat)
    (h : st ≠ InitStatus.poweroff) :
    (shutdown st env cmd timeoutMs).rebootCalled = some cmd ∧
    (shutdown st env cmd timeoutMs).finalStatus = InitStatus.poweroff := by
  simp [shutdown, h]

theorem c5_witness :
    (shutdown InitStatus.launched ⟨none, false, false, none⟩ 0x4321fedc 0).rebootCalled
      = some 0x4321fedc ∧
    (shutdown InitStatus.launched ⟨none, false, false, none⟩ 0x4321fedc 0).finalStatus
      = InitStatus.poweroff :=
  c5_reboot_always InitStatus.launched ⟨none, false, false, none⟩ 0x4321fedc 0 (by decide)

/-- C6: every exit event observed while the phase is strictly below Launched
yields NoAction, leaves the phase unchanged and never reaches the reboot call,
whatever the two maps contain. -/
theorem c6_no_shutdown_before_launched (progs : List Program) (s : RegState)
    (pid tgid : PID) (h : s.initStatus < InitStatus.launched) :
    (handleExit progs s pid tgid).2 = Decision.noAction ∧
    (handleExit progs s pid tgid).1.initStatus = s.initStatus ∧
    (handleExit progs s pid tgid).1.reboots = s.reboots := by
  unfold handleExit
  repeat' split <;> simp_all

theorem c6_witness :
    (handleExit [] startState 1 1).2 = Decision.noAction ∧
    (handleExit [] startState 1 1).1.initStatus = startState.initStatus ∧
    (handleExit [] startState 1 1).1.reboots = startState.reboots :=
  c6_no_shutdown_before_launched [] startState 1 1 (by decide)

/-- C7: a leader exit of a PID present in `internal` (in any reachable state —
every reachable `internal` entry has a nonempty stored path, so the
`len(internal[tgid]) > 0` presence test fires) removes exactly that entry,
leaves `tracked` and everything else unchanged, and yields NoAction, for every
phase and prior map contents. -/
theorem c7_internal_exit_frame (progs : List Program) (s : RegState) (tgid : PID)
    (v : String) (hreach : Reachable s)
    (hmem : assocLookup s.internal tgid = some v) :
    handleExit progs s tgid tgid
      = ({ s with internal := assocErase s.internal tgid }, Decision.noAction) ∧
    assocLookup (assocErase s.internal tgid) tgid = none := by
  have hcls := reachable_internal_untracked hreach (tgid, v) (assocLookup_eq_some_mem hmem)
  have hpos : 0 < v.length :=
    strStartsWith_vorteil_length (isTrackedPath_eq_false hcls).1
  refine ⟨?_, assocLookup_assocErase_self _ _⟩
  unfold handleExit
  rw [if_pos rfl,
    if_pos (show 0 < ((assocLookup s.internal tgid).getD "").length by
      rw [hmem]; exact hpos)]

theorem c7_witness :
    handleExit [] (handleForkExec (fun _ => some "/vorteil/tool") startState 7) 7 7
      = ({ handleForkExec (fun _ => some "/vorteil/tool") startState 7 with
           internal := assocErase
             (handleForkExec (fun _ => some "/vorteil/tool") startState 7).internal 7 },
         Decision.noAction) ∧
    assocLookup (assocErase
      (handleForkExec (fun _ => some "/vorteil/tool") startState 7).internal 7) 7 = none :=
  c7_internal_exit_frame [] (handleForkExec (fun _ => some "/vorteil/tool") startState 7)
    7 "/vorteil/tool"
    (Reachable.forkExec startState (fun _ => some "/vorteil/tool") 7 Reachable.start)
    (by decide)

/-- C8: a netlink message whose type is not the completion type, or whose
payload is shorter than the connector-message header plus the process-event
header (44 bytes), is skipped: no event is dispatched and the registry state
is returned unchanged. -/
theorem c8_truncated_skipped (exe : PID → Option String) (progs : List Program)
    (s : RegState) (m : NlMsg)
    (h : m.htype ≠ NLMSG_DONE ∨ m.data.length < CN_MSG_SIZE + PROC_EVENT_HDR_SIZE) :
    parseNetlinkMessage exe progs s m = (s, Decision.noAction) := by
  unfold parseNetlinkMessage
  by_cases ht : m.htype = NLMSG_DONE
  · rw [if_pos ht]
    rcases h with h | h
    · exact absurd ht h
    · have hz : decodeProcEventHeader m.data
          = { what := 0, cpu := 0, timestamp := 0, processPid := 0, processTgid := 0 } := by
        unfold decodeProcEventHeader
        rw [if_pos h]
      simp [hz, procEventFork, procEventExec, procEventExit]
  · rw [if_neg ht]

theorem c8_witness :
    parseNetlinkMessage (fun _ => none) [] startState ⟨NLMSG_DONE, [1, 0, 0, 0]⟩
      = (startState, Decision.noAction) :=
  c8_truncated_skipped (fun _ => none) [] startState ⟨NLMSG_DONE, [1, 0, 0, 0]⟩
    (Or.inr (by decide))

/-- C9: `recv` rejects every datagram whose netlink sender address is absent
or carries a non-zero netlink pid, before any decoding: it returns an error,
so no events from such a datagram are ever decoded or dispatched. -/
theorem c9_kernel_sender_only (frm : Option NlFrom) (recvErr : Option String) (nr : Nat)
    (parsed : Except String (List NlMsg))
    (h : frm = none ∨ ∃ pid, pid ≠ 0 ∧ frm = some (NlFrom.netlink pid)) :
    recv frm recvErr nr parsed = Except.error "can not create netlink sockaddr" := by
  rcases h with h | ⟨pid, hpid, h⟩
  · subst h
    simp [recv]
  · subst h
    simp [recv, hpid]

theorem c9_witness :
    recv (some (NlFrom.netlink 5)) none 100 (Except.ok [])
      = Except.error "can not create netlink sockaddr" :=
  c9_kernel_sender_only (some (NlFrom.netlink 5)) none 100 (Except.ok [])
    (Or.inr ⟨5, by decide, rfl⟩)

/-- C10: when the leader exit that empties `tracked` arrives with the phase at
least Launched but some program handle nil, the decision is NoAction, and from
the resulting state no run of further exit events (under any program roster)
ever invokes the shutdown sequence: every later leader exit hits the
empty-tracked early return. -/
theorem c10_shutdown_lost (progs : List Program) (s : RegState) (p : PID)
    (hin : assocLookup s.internal p = none)
    (hp : s.procs = {p})
    (hst : InitStatus.launched ≤ s.initStatus)
    (hdead : progs.all Program.live = false) :
    (handleExit progs s p p).2 = Decision.noAction ∧
    (handleExit progs s p p).1.procs = ∅ ∧
    ∀ (progs2 : List Program) (L : List (PID × PID)),
      (runExits progs2 (handleExit progs s p p).1 L).2 = 0 := by
  have hproc : s.procs ≠ ∅ := by
    rw [hp]
    exact Finset.singleton_ne_empty p
  have her : s.procs.erase p = ∅ := by
    rw [hp]
    exact Finset.erase_singleton p
  have hstlt : ¬ s.initStatus < InitStatus.launched := by
    rw [InitStatus.lt_def]
    rw [InitStatus.le_def] at hst
    omega
  have heq := handleExit_lost progs s p hin hproc her hstlt hdead
  rw [heq]
  exact ⟨rfl, her, fun progs2 L =>
    (runExits_quiet progs2 L { s with procs := s.procs.erase p } her hst).1⟩

theorem c10_witness :
    (handleExit [Program.mk none] ⟨{5}, [], InitStatus.launched, 0⟩ 5 5).2
      = Decision.noAction ∧
    (handleExit [Program.mk none] ⟨{5}, [], InitStatus.launched, 0⟩ 5 5).1.procs = ∅ ∧
    (runExits [] (handleExit [Program.mk none] ⟨{5}, [], InitStatus.launched, 0⟩ 5 5).1
      [(5, 5), (9, 9)]).2 = 0 := by
  obtain ⟨h1, h2, h3⟩ := c10_shutdown_lost [Program.mk none]
    ⟨{5}, [], InitStatus.launched, 0⟩ 5 rfl rfl (by decide) (by decide)
  exact ⟨h1, h2, h3 [] [(5, 5), (9, 9)]⟩

end Vinitd
